import Mathlib

/-!
Verification of the ash-ui component library's state logic.

Dates are embedded as integers: a `Date` value is identified with its
millisecond timestamp (for the comparison utilities, where date-fns
`isBefore`/`isAfter` compare timestamps, any strictly ordered embedding
works), or with its civil day number (for the calendar-grid function,
which steps whole days). `null`/`undefined` values become `Option`.
JavaScript callbacks are modelled as `Option` values; "the callback was
invoked with x" is modelled by the function returning `some x`.
-/

namespace AshUI

/-! ## DateRangePicker utilities (`DayCell.tsx` related utils) -/

/-- `DisabledDateStrategy` from `DateRangePicker/types.ts`:
`'none' | 'past' | 'future' | ((date: Date) => boolean)`. -/
inductive DisabledDateStrategy where
  | none : DisabledDateStrategy
  | past : DisabledDateStrategy
  | future : DisabledDateStrategy
  | custom (f : ℤ → Bool) : DisabledDateStrategy

/-- `DateRangeValue` from `DateRangePicker/types.ts`: a pair of nullable
dates. (`from` is a Lean keyword, so the field is `fromDate`.) -/
structure DateRangeValue where
  fromDate : Option ℤ
  toDate : Option ℤ

/-- `isDateDisabled` from the DateRangePicker utils: custom predicate
first, then min/max bounds, then the named strategy, each as an early
`return true`; the current wall-clock date (`new Date()`) is passed
explicitly as `now`. -/
def isDateDisabled (date : ℤ) (strategy : Option DisabledDateStrategy)
    (minDate maxDate : Option ℤ) (customPredicate : Option (ℤ → Bool))
    (now : ℤ) : Bool :=
  if (match customPredicate with
      | some p => p date
      | Option.none => false) then
    true
  else if (match minDate with
      | some mn => decide (date < mn)
      | Option.none => false) then
    true
  else if (match maxDate with
      | some mx => decide (mx < date)
      | Option.none => false) then
    true
  else
    match strategy with
    | some DisabledDateStrategy.none => false
    | some DisabledDateStrategy.past => decide (date < now)
    | some DisabledDateStrategy.future => decide (now < date)
    | some (DisabledDateStrategy.custom f) => f date
    | Option.none => false

/-- The spec's reading of the strategy contribution: `'none'` contributes
false, `'past'` matches when the date is before now, `'future'` when it
is after now, a function strategy contributes its own result, and an
absent strategy contributes false. -/
def strategyMatches (strategy : Option DisabledDateStrategy)
    (date now : ℤ) : Prop :=
  match strategy with
  | some DisabledDateStrategy.none => False
  | some DisabledDateStrategy.past => date < now
  | some DisabledDateStrategy.future => now < date
  | some (DisabledDateStrategy.custom f) => f date = true
  | Option.none => False

/-- `isDateInRange` from the DateRangePicker utils: `false` when either
end of the range is null, otherwise normalize the endpoints with
`isBefore`/`isAfter` and test inclusively. -/
def isDateInRange (date : ℤ) (range : DateRangeValue) : Bool :=
  match range.fromDate, range.toDate with
  | some f, some t =>
    let start := if f < t then f else t
    let stop := if t < f then f else t
    decide (¬ date < start) && decide (¬ stop < date)
  | _, _ => false

/-! ## DataTable sorting (`DataTable/hooks.ts`, `useSort`) -/

/-- `SortDirection` is `'asc' | 'desc' | null`; the nullable type is
`Option SortDirection`. -/
inductive SortDirection where
  | asc : SortDirection
  | desc : SortDirection
deriving DecidableEq, Repr

/-- `SortState` from the DataTable types: a column key and a nullable
direction. -/
structure SortState where
  key : String
  direction : Option SortDirection
deriving DecidableEq, Repr

/-- The result of one `handleSort` click: the state stored via `setSort`
and the value delivered to the `onSortChange` callback. -/
structure SortStep where
  stored : SortState
  emitted : SortState
deriving DecidableEq, Repr

/-- `useSort.handleSort`: on a click on column `key`, compute the new
direction (different column: `'asc'`; same column: `'asc'` flips to
`'desc'`, anything else to `'asc'`), then both call `onSortChange` with
the new state and store it. -/
def handleSort (prev : SortState) (key : String) : SortStep :=
  let newDirection : Option SortDirection :=
    if prev.key ≠ key then
      some SortDirection.asc
    else
      if prev.direction = some SortDirection.asc then
        some SortDirection.desc
      else
        some SortDirection.asc
  let newSort : SortState := { key := key, direction := newDirection }
  { stored := newSort, emitted := newSort }

/-! ## DataTable pagination (`usePagination`) -/

/-- `totalPages = Math.ceil(total / pageSize)`: on naturals with
`pageSize ≥ 1` the ceiling of the exact quotient is the rounded-up
integer division `(total + pageSize - 1) / pageSize`. -/
def totalPages (total pageSize : ℕ) : ℕ := (total + pageSize - 1) / pageSize

/-- `handlePageChange` (returned as `setPage`): clamps the requested
page to `max(1, min(newPage, totalPages))` and delivers exactly the
clamped value (to `onPageChange` in controlled mode, to `setLocalPage`
otherwise). The result is the delivered page. -/
def handlePageChange (total pageSize : ℕ) (newPage : ℤ) : ℤ :=
  max 1 (min newPage (totalPages total pageSize))

/-- `handleNextPage`: calls `handlePageChange (page + 1)` only when
`page < totalPages`; `none` means no page was delivered. -/
def handleNextPage (page : ℤ) (total pageSize : ℕ) : Option ℤ :=
  if page < (totalPages total pageSize : ℤ) then
    some (handlePageChange total pageSize (page + 1))
  else
    Option.none

/-- `handlePrevPage`: calls `handlePageChange (page - 1)` only when
`page > 1`. -/
def handlePrevPage (page : ℤ) (total pageSize : ℕ) : Option ℤ :=
  if 1 < page then
    some (handlePageChange total pageSize (page - 1))
  else
    Option.none

/-- `handlePageSizeChange` in controlled mode resets to the first page:
the page it delivers through `onPageChange` is `1`. -/
def handlePageSizeChangeDeliveredPage : ℤ := 1

/-- `startIndex: (page - 1) * pageSize + 1`. -/
def startIndex (page : ℤ) (pageSize : ℕ) : ℤ := (page - 1) * pageSize + 1

/-- `endIndex: Math.min(page * pageSize, total)`. -/
def endIndex (page : ℤ) (pageSize : ℕ) (total : ℕ) : ℤ :=
  min (page * pageSize) (total : ℤ)

/-! ## Disabled controls (`Button.tsx`, `DayCell.tsx`) -/

/-- `Button.handleClick`: returns early when `loading` is set, otherwise
invokes the user `onClick` if one was supplied. The result records
whether the user callback was invoked. -/
def buttonHandleClick (loading hasOnClick : Bool) : Bool :=
  if loading then false else hasOnClick

/-- `isDisabled = disabled || loading` — the value rendered into the
`disabled` attribute of the underlying `<button>`. -/
def buttonIsDisabled (disabled loading : Bool) : Bool := disabled || loading

/-- A click on the rendered Button. The component renders
`<button disabled={isDisabled} onClick={handleClick}>`; per DOM
semantics a button whose `disabled` attribute is set does not dispatch
click events, so `handleClick` runs only when `isDisabled` is false. -/
def buttonClick (disabled loading hasOnClick : Bool) : Bool :=
  if buttonIsDisabled disabled loading then false
  else buttonHandleClick loading hasOnClick

/-- `DayCell.handleClick`: invokes `onClick(date)` only when the cell is
not disabled and a handler is provided; `some d` means the `onClick`
callback was invoked with date `d`, `none` means no callback ran. -/
def dayCellHandleClick (isDisabled : Bool) (date : ℤ) (hasOnClick : Bool) :
    Option ℤ :=
  if !isDisabled && hasOnClick then some date else Option.none

/-! ## Modal close button (`Modal.tsx`, `ModalCloseButton`) -/

/-- What `Modal.CloseButton` renders: either a console warning plus
`null`, or a close button carrying its click handler. -/
inductive CloseButtonRender (α : Type) where
  | warnAndRenderNothing : CloseButtonRender α
  | closeButton (handler : α) : CloseButtonRender α
deriving DecidableEq

/-- `ModalCloseButton`: `handleClose = customOnClose || context.onClose`
(both are functions, so `||` picks the first one present; the default
context outside a `Modal` has no `onClose`); with no handler it warns
and renders nothing, otherwise it renders the close button wired to
`handleClose`. -/
def modalCloseButton {α : Type} (customOnClose contextOnClose : Option α) :
    CloseButtonRender α :=
  match (match customOnClose with
         | some h => some h
         | Option.none => contextOnClose) with
  | some h => CloseButtonRender.closeButton h
  | Option.none => CloseButtonRender.warnAndRenderNothing

/-- Clicking the rendered output: the close button invokes exactly its
handler; rendering nothing invokes nothing. -/
def clickCloseButton {α : Type} : CloseButtonRender α → Option α
  | CloseButtonRender.closeButton h => some h
  | CloseButtonRender.warnAndRenderNothing => Option.none

/-! ## DataTable row selection (`useRowSelection`) -/

/-- A row key is `string | number`. -/
inductive RowKey where
  | num (n : ℤ) : RowKey
  | str (s : String) : RowKey
deriving DecidableEq

/-- `const key = getRowKey ? getRowKey(row, index) : index`. -/
def rowKeyOf {R : Type} (getRowKey : Option (R → ℕ → RowKey)) (row : R)
    (index : ℕ) : RowKey :=
  match getRowKey with
  | some f => f row index
  | Option.none => RowKey.num index

/-- `toggleRow`: no-op when selection is disabled; with no explicit
`isSelected` flag it toggles the key's membership, with `isSelected`
true/false it forces the key in/out. The result is the new
`selectedRowKeys` set. -/
def toggleRow {R : Type} (enableSelection : Bool)
    (getRowKey : Option (R → ℕ → RowKey)) (selected : Finset RowKey)
    (row : R) (index : ℕ) (isSelected : Option Bool) : Finset RowKey :=
  if !enableSelection then selected
  else
    let key := rowKeyOf getRowKey row index
    match isSelected with
    | Option.none =>
      if key ∈ selected then selected.erase key else insert key selected
    | some true => insert key selected
    | some false => selected.erase key

/-- `toggleAllRows`: no-op when selection is disabled; with
`isSelected = true` the new selection is exactly the keys of the given
rows (each row with its index), with `false` it is empty. -/
def toggleAllRows {R : Type} (enableSelection : Bool)
    (getRowKey : Option (R → ℕ → RowKey)) (selected : Finset RowKey)
    (rows : List R) (isSelected : Bool) : Finset RowKey :=
  if !enableSelection then selected
  else if isSelected then
    (rows.enum.map (fun p => rowKeyOf getRowKey p.2 p.1)).toFinset
  else ∅

/-- `isRowSelected`: false when selection is disabled, otherwise
membership of the row's key in the selection set. -/
def isRowSelected {R : Type} (enableSelection : Bool)
    (getRowKey : Option (R → ℕ → RowKey)) (selected : Finset RowKey)
    (row : R) (index : ℕ) : Bool :=
  if !enableSelection then false
  else decide (rowKeyOf getRowKey row index ∈ selected)

/-! ## Modal focus trap (`Modal/hooks.ts`, `useFocusTrap`) -/

/-- A keyboard event the trap's `keydown` listener reacts to. -/
inductive KeyEvent where
  | tab : KeyEvent
  | shiftTab : KeyEvent

/-- One keydown step while the trap is active over `n` focusable
elements, with focus on element `i` (0-based, in the container's
document order). The listener intercepts Tab on the last element
(wrapping to the first) and Shift+Tab on the first (wrapping to the
last); in every other position it lets the browser's sequential focus
navigation move to the adjacent focusable, which — the container's
focusables being contiguous in document order — is the adjacent element
of the container. -/
def trapStep (n : ℕ) (i : ℕ) : KeyEvent → ℕ
  | KeyEvent.tab => if i = n - 1 then 0 else i + 1
  | KeyEvent.shiftTab => if i = 0 then n - 1 else i - 1

/-- The trap's state: the element focused before the modal opened
(`previouslyFocusedElement.current`, as an abstract element id) and the
index of the focused element inside the container. -/
structure TrapState where
  previouslyFocused : ℤ
  focusIndex : ℕ

/-- Opening the trap (the effect body, `isOpen && trapFocus` and at
least one focusable element): save `document.activeElement` and focus
the first focusable element. -/
def openTrap (activeBefore : ℤ) : TrapState :=
  { previouslyFocused := activeBefore, focusIndex := 0 }

/-- Running a sequence of Tab/Shift+Tab keydowns while the trap is
open. -/
def trapRun (n : ℕ) (s : TrapState) (events : List KeyEvent) : TrapState :=
  { previouslyFocused := s.previouslyFocused,
    focusIndex := events.foldl (trapStep n) s.focusIndex }

/-- The effect cleanup on close: restore focus to the previously
focused element. The result is the element that receives focus. -/
def closeTrap (s : TrapState) : ℤ := s.previouslyFocused

/-! ## Calendar grid (`getDaysInMonth`)

Calendar dates are embedded as civil day numbers in the proleptic
Gregorian calendar (0001-01-01 ↦ day 0), the calendar JavaScript
`Date`/date-fns arithmetic implements; `getDay` (day of week) becomes
arithmetic mod 7 on the day number. -/

/-- Gregorian leap year. -/
def isLeapYear (y : ℕ) : Bool :=
  (decide (y % 4 = 0) && decide (y % 100 ≠ 0)) || decide (y % 400 = 0)

/-- Number of days in month `m` (1–12) of year `y`. -/
def daysInMonthLen (y m : ℕ) : ℕ :=
  if m = 2 then (if isLeapYear y then 29 else 28)
  else if m = 4 ∨ m = 6 ∨ m = 9 ∨ m = 11 then 30
  else 31

/-- Total days in the months of year `y` strictly before month `m`. -/
def daysBeforeMonth (y m : ℕ) : ℕ :=
  ((List.range (m - 1)).map (fun k => daysInMonthLen y (k + 1))).sum

/-- Total days in the years strictly before year `y` (year 1 first). -/
def daysBeforeYear (y : ℕ) : ℕ :=
  365 * (y - 1) + (y - 1) / 4 - (y - 1) / 100 + (y - 1) / 400

/-- Civil day number of `y-m-d` (0001-01-01 ↦ 0), as an integer. -/
def toDayNumber (y m d : ℕ) : ℤ :=
  ((daysBeforeYear y + daysBeforeMonth y m + (d - 1) : ℕ) : ℤ)

/-- `getDay`: day of week with Sunday = 0; day 0 (0001-01-01) is a
Monday in the proleptic Gregorian calendar. -/
def dayOfWeek (t : ℤ) : ℤ := (t + 1) % 7

/-- The run of `len` consecutive day numbers from `start`
(`eachDayOfInterval`). -/
def dayInterval (start : ℤ) (len : ℕ) : List ℤ :=
  (List.range len).map (fun (k : ℕ) => start + (k : ℤ))

/-- `startOfMonth(month)` as a day number. -/
def monthStart (y m : ℕ) : ℤ := toDayNumber y m 1

/-- The number of days of the month. -/
def monthLen (y m : ℕ) : ℕ := daysInMonthLen y m

/-- `endOfMonth(month)` as a day number. -/
def monthStop (y m : ℕ) : ℤ := monthStart y m + monthLen y m - 1

/-- `daysToPrepend = getDay(start)`: outside days shown before the
1st. -/
def prependCount (y m : ℕ) : ℕ := (dayOfWeek (monthStart y m)).toNat

/-- `daysToAppend = 6 - getDay(end)`: outside days shown after the last
day. -/
def appendCount (y m : ℕ) : ℕ := (6 - dayOfWeek (monthStop y m)).toNat

/-- The flat day list of the grid: the prepend loop pushes the
`daysToPrepend` consecutive days ending at `start - 1` (i.e. the run
from `start - daysToPrepend`), then come the days of the month, then
the append loop pushes the `daysToAppend` consecutive days starting at
`end + 1`; each outside block only when `showOutsideDays` holds and the
count is positive. -/
def gridDays (y m : ℕ) (showOutsideDays : Bool) : List ℤ :=
  (if showOutsideDays ∧ 0 < prependCount y m then
    dayInterval (monthStart y m - prependCount y m) (prependCount y m)
  else []) ++
  dayInterval (monthStart y m) (monthLen y m) ++
  (if showOutsideDays ∧ 0 < appendCount y m then
    dayInterval (monthStop y m + 1) (appendCount y m)
  else [])

/-- The grouping loop `for (i = 0; i < days.length; i += 7)
weeks.push(days.slice(i, i + 7))`: successive slices of 7. -/
def chunksOf7 (l : List ℤ) : List (List ℤ) :=
  if h : l = [] then []
  else l.take 7 :: chunksOf7 (l.drop 7)
termination_by l.length
decreasing_by
  simp only [List.length_drop]
  have := List.length_pos.mpr h
  omega

/-- `getDaysInMonth`: the calendar grid, as the list of weeks. -/
def getDaysInMonth (y m : ℕ) (showOutsideDays : Bool) : List (List ℤ) :=
  chunksOf7 (gridDays y m showOutsideDays)

end AshUI

namespace AshUI

/-- C1: the day-disable decision of `isDateDisabled` is exactly the
disjunction "custom predicate matches, or the date precedes `minDate`,
or it follows `maxDate`, or the named strategy matches relative to the
current date". -/
theorem isDateDisabled_iff_disjunction (date now : ℤ)
    (strategy : Option DisabledDateStrategy) (minDate maxDate : Option ℤ)
    (customPredicate : Option (ℤ → Bool)) :
    isDateDisabled date strategy minDate maxDate customPredicate now = true ↔
      ((∃ p, customPredicate = some p ∧ p date = true) ∨
        (∃ mn, minDate = some mn ∧ date < mn) ∨
        (∃ mx, maxDate = some mx ∧ mx < date) ∨
        strategyMatches strategy date now) := by
  unfold isDateDisabled strategyMatches
  rcases customPredicate with _ | p <;>
    rcases minDate with _ | mn <;>
      rcases maxDate with _ | mx <;>
        rcases strategy with _ | (_ | _ | _ | f) <;>
          simp

/-- Characterization of `isDateInRange` on a range with both endpoints
present: membership is the inclusive interval between the smaller and
the larger endpoint. -/
theorem isDateInRange_some_iff (e x y : ℤ) :
    isDateInRange e ⟨some x, some y⟩ = true ↔ min x y ≤ e ∧ e ≤ max x y := by
  simp only [isDateInRange, Bool.and_eq_true, decide_eq_true_eq]
  constructor <;> intro h <;> constructor <;> omega

/-- C3: for non-null endpoints, `isDateInRange` is symmetric in the two
endpoints, both endpoints are themselves in range, and membership holds
exactly when the date lies between the smaller and the larger endpoint
inclusively; a null endpoint always yields `false`. -/
theorem isDateInRange_normalized (a b d : ℤ) (r : DateRangeValue) :
    (isDateInRange d ⟨some a, some b⟩ = isDateInRange d ⟨some b, some a⟩) ∧
      (isDateInRange a ⟨some a, some b⟩ = true) ∧
      (isDateInRange b ⟨some a, some b⟩ = true) ∧
      (isDateInRange d ⟨some a, some b⟩ = true ↔
        min a b ≤ d ∧ d ≤ max a b) ∧
      (r.fromDate = Option.none ∨ r.toDate = Option.none →
        isDateInRange d r = false) := by
  refine ⟨?_, ?_, ?_, isDateInRange_some_iff d a b, ?_⟩
  · rw [Bool.eq_iff_iff, isDateInRange_some_iff, isDateInRange_some_iff]
    omega
  · rw [isDateInRange_some_iff]
    omega
  · rw [isDateInRange_some_iff]
    omega
  · rcases r with ⟨rf, rt⟩
    rcases rf with _ | x <;> rcases rt with _ | y <;> intro h <;>
      first | rfl | simp_all

/-- C2: one `handleSort` click on column `key` yields `(key, 'asc')` when
`key` differs from the previously sorted key; on the same key it flips
the direction (`'asc'` becomes `'desc'`, anything else — including the
initial `null` — becomes `'asc'`); and the stored state equals the state
delivered to `onSortChange`. -/
theorem handleSort_spec (prev : SortState) (key : String) :
    (prev.key ≠ key →
      (handleSort prev key).stored =
        { key := key, direction := some SortDirection.asc }) ∧
    (prev.key = key →
      (handleSort prev key).stored.key = key ∧
      (handleSort prev key).stored.direction =
        (if prev.direction = some SortDirection.asc then
          some SortDirection.desc
        else
          some SortDirection.asc)) ∧
    (handleSort prev key).emitted = (handleSort prev key).stored := by
  unfold handleSort
  refine ⟨?_, ?_, rfl⟩
  · intro h
    simp [h]
  · intro h
    simp [h]

/-- C4: with `pageSize ≥ 1`, `usePagination` computes
`totalPages = ⌈total / pageSize⌉`, `startIndex = (page-1)*pageSize + 1`
and `endIndex = min(page*pageSize, total)`; `setPage` delivers exactly
the clamped page `max(1, min(p, totalPages))`; `nextPage` fires exactly
when `page < totalPages` and `prevPage` exactly when `page > 1`; and
whenever `totalPages ≥ 1` every page delivered through `onPageChange`
(by `setPage`, `nextPage`, `prevPage` or the page-size reset) lies
between 1 and `totalPages`. -/
theorem usePagination_spec (page newPage : ℤ) (total pageSize : ℕ)
    (hp : 1 ≤ pageSize) :
    (totalPages total pageSize = total ⌈/⌉ pageSize) ∧
    (startIndex page pageSize = (page - 1) * pageSize + 1) ∧
    (endIndex page pageSize total = min (page * pageSize) (total : ℤ)) ∧
    (handlePageChange total pageSize newPage =
      max 1 (min newPage (totalPages total pageSize))) ∧
    ((handleNextPage page total pageSize).isSome ↔
      page < (totalPages total pageSize : ℤ)) ∧
    ((handlePrevPage page total pageSize).isSome ↔ 1 < page) ∧
    (1 ≤ totalPages total pageSize →
      (1 ≤ handlePageChange total pageSize newPage ∧
        handlePageChange total pageSize newPage ≤ totalPages total pageSize) ∧
      (∀ q, handleNextPage page total pageSize = some q →
        1 ≤ q ∧ q ≤ totalPages total pageSize) ∧
      (∀ q, handlePrevPage page total pageSize = some q →
        1 ≤ q ∧ q ≤ totalPages total pageSize) ∧
      (1 ≤ handlePageSizeChangeDeliveredPage ∧
        handlePageSizeChangeDeliveredPage ≤ totalPages total pageSize)) := by
  refine ⟨(Nat.ceilDiv_eq_add_pred_div total pageSize).symm, rfl, rfl, rfl,
    ?_, ?_, ?_⟩
  · unfold handleNextPage
    split <;> simp_all
  · unfold handlePrevPage
    split <;> simp_all
  · intro ht
    refine ⟨⟨?_, ?_⟩, ?_, ?_, ?_, ?_⟩
    · unfold handlePageChange
      omega
    · unfold handlePageChange
      omega
    · intro q hq
      unfold handleNextPage at hq
      split at hq
      · simp only [Option.some.injEq] at hq
        subst hq
        unfold handlePageChange
        omega
      · exact absurd hq (by simp)
    · intro q hq
      unfold handlePrevPage at hq
      split at hq
      · simp only [Option.some.injEq] at hq
        subst hq
        unfold handlePageChange
        omega
      · exact absurd hq (by simp)
    · unfold handlePageSizeChangeDeliveredPage
      omega
    · unfold handlePageSizeChangeDeliveredPage
      omega

/-- C4 witness: a concrete pagination configuration (page 2 of
25 items at 10 per page). -/
theorem usePagination_spec_witness :
    1 ≤ 10 ∧
    ((totalPages 25 10 = 25 ⌈/⌉ 10) ∧
    (startIndex 2 10 = (2 - 1) * 10 + 1) ∧
    (endIndex 2 10 25 = min (2 * 10) (25 : ℤ)) ∧
    (handlePageChange 25 10 7 = max 1 (min 7 (totalPages 25 10))) ∧
    ((handleNextPage 2 25 10).isSome ↔ 2 < (totalPages 25 10 : ℤ)) ∧
    ((handlePrevPage 2 25 10).isSome ↔ 1 < (2 : ℤ)) ∧
    (1 ≤ totalPages 25 10 →
      (1 ≤ handlePageChange 25 10 7 ∧
        handlePageChange 25 10 7 ≤ totalPages 25 10) ∧
      (∀ q, handleNextPage 2 25 10 = some q →
        1 ≤ q ∧ q ≤ totalPages 25 10) ∧
      (∀ q, handlePrevPage 2 25 10 = some q →
        1 ≤ q ∧ q ≤ totalPages 25 10) ∧
      (1 ≤ handlePageSizeChangeDeliveredPage ∧
        handlePageSizeChangeDeliveredPage ≤ totalPages 25 10))) :=
  ⟨by decide, usePagination_spec 2 7 25 10 (by decide)⟩

/-- C5: a click on a disabled control is ignored — a Button whose
`disabled` or `loading` prop is true never invokes the user `onClick`
on click, and a disabled DayCell's click handler never invokes its
`onClick` callback (it performs no observable action at all). -/
theorem disabled_click_ignored (disabled loading hasOnClickB : Bool)
    (isDisabledCell : Bool) (date : ℤ) (hasOnClickD : Bool)
    (hb : disabled = true ∨ loading = true) (hd : isDisabledCell = true) :
    buttonClick disabled loading hasOnClickB = false ∧
    dayCellHandleClick isDisabledCell date hasOnClickD = Option.none := by
  subst hd
  constructor
  · rcases hb with hb | hb <;>
      simp [buttonClick, buttonIsDisabled, buttonHandleClick, hb]
  · simp [dayCellHandleClick]

/-- C5 witness: a disabled Button and a disabled DayCell, both with a
callback supplied, deliver nothing on click. -/
theorem disabled_click_ignored_witness :
    ((true : Bool) = true ∨ (false : Bool) = true) ∧ (true : Bool) = true ∧
    (buttonClick true false true = false ∧
      dayCellHandleClick true 5 true = Option.none) :=
  ⟨Or.inl rfl, rfl, disabled_click_ignored true false true true 5 true
    (Or.inl rfl) rfl⟩

/-- C7: `Modal.CloseButton` with neither a custom `onClose` nor a Modal
context handler warns and renders nothing; with a handler available it
renders a close button whose click invokes exactly that handler,
preferring the custom `onClose` over the context one. -/
theorem modalCloseButton_fallback {α : Type} (h : α) (ctx : Option α) :
    (modalCloseButton (Option.none : Option α) Option.none =
      CloseButtonRender.warnAndRenderNothing) ∧
    (modalCloseButton (some h) ctx = CloseButtonRender.closeButton h) ∧
    (modalCloseButton Option.none (some h) =
      CloseButtonRender.closeButton h) ∧
    (clickCloseButton (modalCloseButton (some h) ctx) = some h) ∧
    (clickCloseButton (modalCloseButton Option.none (some h)) = some h) ∧
    (clickCloseButton
      (modalCloseButton (Option.none : Option α) Option.none) =
      Option.none) := by
  refine ⟨rfl, rfl, rfl, rfl, rfl, rfl⟩

/-- C9: row selection respects the enable flag — disabled selection is
inert (`toggleRow`/`toggleAllRows` leave the set unchanged,
`isRowSelected` is constantly false); enabled `toggleRow` with no flag
is an involution on the selection set, `toggleRow` with an explicit
flag forces the key in or out, and enabled `toggleAllRows` produces
exactly the keys of the given rows (or the empty set). -/
theorem useRowSelection_spec {R : Type} (g : Option (R → ℕ → RowKey))
    (s : Finset RowKey) (row : R) (index : ℕ) (rows : List R)
    (b : Option Bool) (x : RowKey) :
    (toggleRow false g s row index b = s) ∧
    (toggleAllRows false g s rows true = s) ∧
    (toggleAllRows false g s rows false = s) ∧
    (isRowSelected false g s row index = false) ∧
    (toggleRow true g (toggleRow true g s row index Option.none) row index
      Option.none = s) ∧
    (rowKeyOf g row index ∈ toggleRow true g s row index (some true)) ∧
    (rowKeyOf g row index ∉ toggleRow true g s row index (some false)) ∧
    (x ∈ toggleAllRows true g s rows true ↔
      ∃ p ∈ rows.enum, rowKeyOf g p.2 p.1 = x) ∧
    (toggleAllRows true g s rows false = ∅) := by
  refine ⟨rfl, rfl, rfl, rfl, ?_, ?_, ?_, ?_, rfl⟩
  · by_cases hk : rowKeyOf g row index ∈ s
    · have h1 : toggleRow true g s row index Option.none =
          s.erase (rowKeyOf g row index) := by
        simp [toggleRow, hk]
      rw [h1]
      have h2 : rowKeyOf g row index ∉ s.erase (rowKeyOf g row index) :=
        Finset.not_mem_erase _ _
      simp [toggleRow, h2, Finset.insert_erase hk]
    · have h1 : toggleRow true g s row index Option.none =
          insert (rowKeyOf g row index) s := by
        simp [toggleRow, hk]
      rw [h1]
      simp [toggleRow, Finset.erase_insert hk]
  · simp [toggleRow]
  · simp [toggleRow]
  · simp [toggleAllRows, List.mem_toFinset, List.mem_map]

/-- Any single trap keydown step stays inside the container. -/
theorem trapStep_lt (n i : ℕ) (e : KeyEvent) (hn : 1 ≤ n) (hi : i < n) :
    trapStep n i e < n := by
  cases e <;> simp only [trapStep] <;> split_ifs <;> omega

/-- Any sequence of trap keydown steps stays inside the container. -/
theorem trapFold_lt (n : ℕ) (hn : 1 ≤ n) :
    ∀ (events : List KeyEvent) (i : ℕ), i < n →
      events.foldl (trapStep n) i < n := by
  intro events
  induction events with
  | nil =>
    intro i hi
    simpa using hi
  | cons e es ih =>
    intro i hi
    exact ih _ (trapStep_lt n i e hn hi)

/-- C6: while the trap is active over `n ≥ 1` focusable elements, the
focus index after any sequence of Tab/Shift+Tab keydowns stays inside
the container; Tab on the last element wraps to the first, Shift+Tab on
the first wraps to the last, and every other position moves to the
adjacent in-container element; closing restores focus to the element
focused before the modal opened. -/
theorem useFocusTrap_spec (n : ℕ) (activeBefore : ℤ)
    (events : List KeyEvent) (i : ℕ) (hn : 1 ≤ n) (hi : i < n) :
    ((trapRun n (openTrap activeBefore) events).focusIndex < n) ∧
    (trapStep n (n - 1) KeyEvent.tab = 0) ∧
    (trapStep n 0 KeyEvent.shiftTab = n - 1) ∧
    (i ≠ n - 1 →
      trapStep n i KeyEvent.tab = i + 1 ∧ trapStep n i KeyEvent.tab < n) ∧
    (i ≠ 0 → trapStep n i KeyEvent.shiftTab = i - 1) ∧
    (closeTrap (trapRun n (openTrap activeBefore) events) = activeBefore) := by
  refine ⟨trapFold_lt n hn events 0 (by omega), ?_, ?_, ?_, ?_, rfl⟩
  · unfold trapStep
    simp
  · unfold trapStep
    simp
  · intro h
    unfold trapStep
    refine ⟨by simp [h], ?_⟩
    simp only [h, if_false]
    omega
  · intro h
    unfold trapStep
    simp [h]

/-- C6 witness: a trap over two focusable elements, a concrete keydown
sequence, and the middle position checks at index 0. -/
theorem useFocusTrap_spec_witness :
    1 ≤ 2 ∧ 0 < 2 ∧
    (((trapRun 2 (openTrap 42)
        [KeyEvent.tab, KeyEvent.tab, KeyEvent.shiftTab]).focusIndex < 2) ∧
    (trapStep 2 (2 - 1) KeyEvent.tab = 0) ∧
    (trapStep 2 0 KeyEvent.shiftTab = 2 - 1) ∧
    ((0 : ℕ) ≠ 2 - 1 →
      trapStep 2 0 KeyEvent.tab = 0 + 1 ∧ trapStep 2 0 KeyEvent.tab < 2) ∧
    ((0 : ℕ) ≠ 0 → trapStep 2 0 KeyEvent.shiftTab = 0 - 1) ∧
    (closeTrap (trapRun 2 (openTrap 42)
      [KeyEvent.tab, KeyEvent.tab, KeyEvent.shiftTab]) = 42)) :=
  ⟨by decide, by decide,
    useFocusTrap_spec 2 42 [KeyEvent.tab, KeyEvent.tab, KeyEvent.shiftTab] 0
      (by decide) (by decide)⟩

/-- `dayInterval` has the stated length. -/
theorem dayInterval_length (s : ℤ) (k : ℕ) : (dayInterval s k).length = k := by
  simp [dayInterval]

/-- Splitting a run of consecutive days. -/
theorem dayInterval_append (s : ℤ) (a b : ℕ) :
    dayInterval s (a + b) = dayInterval s a ++ dayInterval (s + a) b := by
  unfold dayInterval
  simp only [List.range_add, List.map_append, List.map_map]
  congr 1
  apply List.map_congr_left
  intro j hj
  simp only [Function.comp_apply]
  push_cast
  ring

/-- Peeling the first day off a nonempty run. -/
theorem dayInterval_succ (s : ℤ) (k : ℕ) :
    dayInterval s (k + 1) = s :: dayInterval (s + 1) k := by
  unfold dayInterval
  rw [List.range_succ_eq_map, List.map_cons, List.map_map]
  simp only [Nat.cast_zero, add_zero]
  congr 1
  apply List.map_congr_left
  intro j hj
  simp only [Function.comp_apply]
  push_cast
  ring

/-- A run of consecutive days is a chain of successor steps. -/
theorem dayInterval_chain (k : ℕ) :
    ∀ s : ℤ, List.Chain' (fun u v : ℤ => v = u + 1) (dayInterval s k) := by
  induction k with
  | zero =>
    intro s
    simp [dayInterval]
  | succ n ih =>
    intro s
    rw [dayInterval_succ, List.chain'_cons']
    refine ⟨?_, ih (s + 1)⟩
    intro z hz
    cases n with
    | zero => simp [dayInterval] at hz
    | succ j =>
      rw [dayInterval_succ, List.head?_cons, Option.mem_some_iff] at hz
      omega

/-- Membership in a run of consecutive days. -/
theorem mem_dayInterval {d s : ℤ} {k : ℕ} :
    d ∈ dayInterval s k ↔ s ≤ d ∧ d < s + k := by
  unfold dayInterval
  simp only [List.mem_map, List.mem_range]
  constructor
  · rintro ⟨j, hj, rfl⟩
    omega
  · intro h
    exact ⟨(d - s).toNat, by omega, by omega⟩

/-- A run of consecutive days has no duplicates. -/
theorem dayInterval_nodup (s : ℤ) (k : ℕ) : (dayInterval s k).Nodup := by
  unfold dayInterval
  refine List.Nodup.map ?_ (List.nodup_range k)
  intro a b hab
  have hab' : s + (a : ℤ) = s + (b : ℤ) := hab
  omega

/-- Each day of a run occurs exactly once. -/
theorem dayInterval_count (s : ℤ) (k : ℕ) (d : ℤ) (h1 : s ≤ d)
    (h2 : d < s + k) : (dayInterval s k).count d = 1 :=
  List.count_eq_one_of_mem (dayInterval_nodup s k)
    (mem_dayInterval.mpr ⟨h1, h2⟩)

/-- Head of a nonempty run. -/
theorem dayInterval_head (s : ℤ) (k : ℕ) (hk : 0 < k) :
    (dayInterval s k).head? = some s := by
  cases k with
  | zero => omega
  | succ j =>
    rw [dayInterval_succ]
    rfl

/-- `chunksOf7` of the empty list. -/
theorem chunksOf7_nil : chunksOf7 [] = [] := by
  unfold chunksOf7
  simp

/-- `chunksOf7` of a nonempty list. -/
theorem chunksOf7_ne (l : List ℤ) (h : l ≠ []) :
    chunksOf7 l = l.take 7 :: chunksOf7 (l.drop 7) := by
  rw [chunksOf7]
  simp [h]

/-- When the list length is divisible by 7, every chunk has exactly 7
elements. -/
theorem chunksOf7_length_eq :
    ∀ (bound : ℕ) (l : List ℤ), l.length ≤ bound → 7 ∣ l.length →
      ∀ w ∈ chunksOf7 l, w.length = 7 := by
  intro bound
  induction bound with
  | zero =>
    intro l hl _ w hw
    have hnil : l = [] := by
      cases l
      · rfl
      · simp at hl
    subst hnil
    rw [chunksOf7_nil] at hw
    simp at hw
  | succ bound ih =>
    intro l hl hdvd w hw
    rcases eq_or_ne l [] with hnil | hnil
    · subst hnil
      rw [chunksOf7_nil] at hw
      simp at hw
    · have hpos : 0 < l.length := List.length_pos.mpr hnil
      have h7 : 7 ≤ l.length := by omega
      rw [chunksOf7_ne l hnil] at hw
      rcases List.mem_cons.mp hw with hw | hw
      · subst hw
        simp only [List.length_take]
        omega
      · exact ih (l.drop 7) (by simp only [List.length_drop]; omega)
          (by simp only [List.length_drop]; omega) w hw

/-- The chunks concatenate back to the original list. -/
theorem chunksOf7_flatten :
    ∀ (bound : ℕ) (l : List ℤ), l.length ≤ bound →
      (chunksOf7 l).flatten = l := by
  intro bound
  induction bound with
  | zero =>
    intro l hl
    have hnil : l = [] := by
      cases l
      · rfl
      · simp at hl
    subst hnil
    rw [chunksOf7_nil]
    rfl
  | succ bound ih =>
    intro l hl
    rcases eq_or_ne l [] with hnil | hnil
    · subst hnil
      rw [chunksOf7_nil]
      rfl
    · have hpos : 0 < l.length := List.length_pos.mpr hnil
      rw [chunksOf7_ne l hnil, List.flatten_cons,
        ih (l.drop 7) (by simp only [List.length_drop]; omega)]
      exact List.take_append_drop 7 l

/-- Every chunk is nonempty and has at most 7 elements. -/
theorem chunksOf7_bounds :
    ∀ (bound : ℕ) (l : List ℤ), l.length ≤ bound →
      ∀ w ∈ chunksOf7 l, 0 < w.length ∧ w.length ≤ 7 := by
  intro bound
  induction bound with
  | zero =>
    intro l hl _ hw
    have hnil : l = [] := by
      cases l
      · rfl
      · simp at hl
    subst hnil
    rw [chunksOf7_nil] at hw
    simp at hw
  | succ bound ih =>
    intro l hl w hw
    rcases eq_or_ne l [] with hnil | hnil
    · subst hnil
      rw [chunksOf7_nil] at hw
      simp at hw
    · have hpos : 0 < l.length := List.length_pos.mpr hnil
      rw [chunksOf7_ne l hnil] at hw
      rcases List.mem_cons.mp hw with hw | hw
      · subst hw
        simp only [List.length_take]
        omega
      · exact ih (l.drop 7) (by simp only [List.length_drop]; omega) w hw

/-- An empty run collapses the optional outside block. -/
theorem dayInterval_if_pos (s : ℤ) (k : ℕ) :
    (if 0 < k then dayInterval s k else []) = dayInterval s k := by
  split
  · rfl
  · rename_i h
    have hk : k = 0 := by omega
    subst hk
    rfl

/-- `endOfMonth + 1` is the day after the month. -/
theorem monthStop_succ (y m : ℕ) :
    monthStop y m + 1 = monthStart y m + monthLen y m := by
  unfold monthStop
  ring

/-- Without outside days the grid's day list is exactly the month. -/
theorem gridDays_false (y m : ℕ) :
    gridDays y m false = dayInterval (monthStart y m) (monthLen y m) := by
  simp [gridDays]

/-- With outside days the grid's day list is the single consecutive run
from `start - daysToPrepend` of length
`daysToPrepend + monthLen + daysToAppend`. -/
theorem gridDays_true (y m : ℕ) :
    gridDays y m true =
      dayInterval (monthStart y m - prependCount y m)
        (prependCount y m + monthLen y m + appendCount y m) := by
  have e1 : monthStart y m - (prependCount y m : ℤ) + (prependCount y m : ℤ) =
      monthStart y m := by
    ring
  have e2 : monthStart y m - (prependCount y m : ℤ) +
      ((prependCount y m + monthLen y m : ℕ) : ℤ) = monthStop y m + 1 := by
    rw [monthStop_succ]
    push_cast
    ring
  rw [dayInterval_append, dayInterval_append, e1, e2]
  simp only [gridDays, eq_self_iff_true, true_and, dayInterval_if_pos]

/-- The grid's total day count is a multiple of 7. -/
theorem grid_total_dvd (y m : ℕ) :
    7 ∣ (prependCount y m + monthLen y m + appendCount y m) := by
  unfold prependCount appendCount dayOfWeek monthStop
  omega

/-- Every month has at least one day. -/
theorem monthLen_pos (y m : ℕ) : 1 ≤ monthLen y m := by
  unfold monthLen daysInMonthLen
  split_ifs <;> omega

/-- C8: with outside days shown, every week of `getDaysInMonth` has
exactly 7 days; the concatenation of the weeks is a single run of
consecutive calendar days that starts at the Sunday on or before the
1st of the month and ends on a Saturday; every day of the month occurs
exactly once in the grid; without outside days the grid is exactly the
days of the month grouped in nonempty chunks of at most 7. -/
theorem getDaysInMonth_grid (y m : ℕ) :
    (∀ w ∈ getDaysInMonth y m true, w.length = 7) ∧
    (List.Chain' (fun u v : ℤ => v = u + 1)
      (getDaysInMonth y m true).flatten) ∧
    ((getDaysInMonth y m true).flatten =
      dayInterval (monthStart y m - prependCount y m)
        (prependCount y m + monthLen y m + appendCount y m)) ∧
    ((getDaysInMonth y m true).flatten.head? =
      some (monthStart y m - prependCount y m)) ∧
    (dayOfWeek (monthStart y m - prependCount y m) = 0) ∧
    (monthStart y m - prependCount y m ≤ monthStart y m ∧
      monthStart y m < monthStart y m - prependCount y m + 7) ∧
    (monthStart y m - prependCount y m +
        ((prependCount y m + monthLen y m + appendCount y m : ℕ) : ℤ) - 1 =
      monthStop y m + appendCount y m ∧
      dayOfWeek (monthStop y m + appendCount y m) = 6) ∧
    (∀ d : ℤ, monthStart y m ≤ d → d ≤ monthStop y m →
      (getDaysInMonth y m true).flatten.count d = 1) ∧
    ((getDaysInMonth y m false).flatten =
      dayInterval (monthStart y m) (monthLen y m)) ∧
    (∀ w ∈ getDaysInMonth y m false, 0 < w.length ∧ w.length ≤ 7) := by
  have hdvd := grid_total_dvd y m
  have hL := monthLen_pos y m
  have hflat : (getDaysInMonth y m true).flatten =
      dayInterval (monthStart y m - prependCount y m)
        (prependCount y m + monthLen y m + appendCount y m) := by
    unfold getDaysInMonth
    rw [chunksOf7_flatten (gridDays y m true).length _ le_rfl, gridDays_true]
  refine ⟨?_, ?_, hflat, ?_, ?_, ?_, ?_, ?_, ?_, ?_⟩
  · intro w hw
    unfold getDaysInMonth at hw
    refine chunksOf7_length_eq (gridDays y m true).length _ le_rfl ?_ w hw
    rw [gridDays_true, dayInterval_length]
    exact hdvd
  · rw [hflat]
    exact dayInterval_chain _ _
  · rw [hflat]
    apply dayInterval_head
    omega
  · unfold prependCount dayOfWeek
    omega
  · unfold prependCount dayOfWeek
    omega
  · constructor
    · unfold monthStop
      push_cast
      ring
    · unfold appendCount dayOfWeek monthStop
      omega
  · intro d h1 h2
    have h2' : d ≤ monthStart y m + monthLen y m - 1 := h2
    rw [hflat]
    apply dayInterval_count
    · omega
    · push_cast
      omega
  · unfold getDaysInMonth
    rw [chunksOf7_flatten (gridDays y m false).length _ le_rfl, gridDays_false]
  · intro w hw
    unfold getDaysInMonth at hw
    exact chunksOf7_bounds (gridDays y m false).length _ le_rfl w hw

end AshUI
